import Mathlib

/-!
Verification model of the MyHouseHunterBot pipeline (src/main.py).

Python strings are modelled as lists of characters.  The external
collaborators are modelled as oracles passed in as arguments: the browser
crawl is an `Except` value (an exception or a rendered page), the LLM chat
call is an `LlmOutcome`, and each Telegram `requests.post` call is a
`CallOutcome` drawn from an oracle indexed by the call number.  Python
dynamic values produced by `json.loads` are modelled by the `Json`
inductive, and the dynamic errors that the interpreter raises on bad
subscripting or membership tests are modelled by `PyErr`.
-/

set_option maxRecDepth 40000

abbrev Str := List Char

/-- JSON whitespace as accepted by `json.loads`: space, tab, LF, CR. -/
def isWS (c : Char) : Bool :=
  c == ' ' || c == '\t' || c == '\n' || c == '\r'

/-- Python `str.strip` whitespace: space, tab, LF, CR, VT, FF. -/
def isPySpace (c : Char) : Bool :=
  c == ' ' || c == '\t' || c == '\n' || c == '\r' || c == '\x0b' || c == '\x0c'

/-- Drop leading JSON whitespace. -/
def skipWS (s : Str) : Str := List.dropWhile isWS s

/-- Left part of Python `str.strip`. -/
def stripL (s : Str) : Str := List.dropWhile isPySpace s

/-- Right part of Python `str.strip`. -/
def stripR (s : Str) : Str := (List.dropWhile isPySpace s.reverse).reverse

/-- Python `str.strip()`: remove leading and trailing whitespace. -/
def pyStrip (s : Str) : Str := stripR (stripL s)

/-- `startsWith pat s` is true when `pat` is an initial segment of `s`. -/
def startsWith : Str → Str → Bool
  | [], _ => true
  | _ :: _, [] => false
  | p :: ps, c :: cs => p == c && startsWith ps cs

/-- `containsSub pat s` models the Python substring test `pat in s`. -/
def containsSub (pat : Str) : Str → Bool
  | [] => startsWith pat []
  | c :: cs => startsWith pat (c :: cs) || containsSub pat cs

/--
One fuelled pass of Python `str.replace(pat, rep)`: scan left to right,
replace each non-overlapping occurrence of `pat`, resume after it.  The
fuel only bounds the recursion; `pyReplace` supplies `s.length`, which is
always enough because each step consumes at least one character of input.
-/
def replaceFuel (pat rep : Str) : Nat → Str → Str
  | 0, xs => xs
  | _ + 1, [] => []
  | f + 1, c :: cs =>
    if startsWith pat (c :: cs) then
      rep ++ replaceFuel pat rep f (List.drop (pat.length - 1) cs)
    else
      c :: replaceFuel pat rep f cs

/-- Python `s.replace(pat, rep)`. -/
def pyReplace (s pat rep : Str) : Str := replaceFuel pat rep s.length s

/-- Dynamic JSON values, the results of `json.loads`. -/
inductive Json where
  | null
  | bool (b : Bool)
  | num (n : Int)
  | str (s : Str)
  | arr (xs : List Json)
  | obj (kvs : List (Str × Json))

mutual

/-- Structural equality test on `Json`, recursing through the nested lists. -/
def jsonBeq : Json → Json → Bool
  | .null, .null => true
  | .bool a, .bool b => a == b
  | .num a, .num b => a == b
  | .str a, .str b => a == b
  | .arr a, .arr b => jsonBeqList a b
  | .obj a, .obj b => jsonBeqFields a b
  | _, _ => false

/-- Structural equality on lists of `Json`. -/
def jsonBeqList : List Json → List Json → Bool
  | [], [] => true
  | x :: xs, y :: ys => jsonBeq x y && jsonBeqList xs ys
  | _, _ => false

/-- Structural equality on lists of key-value pairs. -/
def jsonBeqFields : List (Str × Json) → List (Str × Json) → Bool
  | [], [] => true
  | (k, v) :: xs, (l, w) :: ys => k == l && jsonBeq v w && jsonBeqFields xs ys
  | _, _ => false

end

mutual

theorem jsonBeq_iff : ∀ a b : Json, jsonBeq a b = true ↔ a = b
  | .null, .null => by simp [jsonBeq]
  | .bool _, .bool _ => by simp [jsonBeq]
  | .num _, .num _ => by simp [jsonBeq]
  | .str _, .str _ => by simp [jsonBeq]
  | .arr x, .arr y => by simp [jsonBeq, jsonBeqList_iff x y]
  | .obj x, .obj y => by simp [jsonBeq, jsonBeqFields_iff x y]
  | .null, .bool _ | .null, .num _ | .null, .str _ | .null, .arr _ | .null, .obj _
  | .bool _, .null | .bool _, .num _ | .bool _, .str _ | .bool _, .arr _ | .bool _, .obj _
  | .num _, .null | .num _, .bool _ | .num _, .str _ | .num _, .arr _ | .num _, .obj _
  | .str _, .null | .str _, .bool _ | .str _, .num _ | .str _, .arr _ | .str _, .obj _
  | .arr _, .null | .arr _, .bool _ | .arr _, .num _ | .arr _, .str _ | .arr _, .obj _
  | .obj _, .null | .obj _, .bool _ | .obj _, .num _ | .obj _, .str _ | .obj _, .arr _ => by
    simp [jsonBeq]

theorem jsonBeqList_iff : ∀ a b : List Json, jsonBeqList a b = true ↔ a = b
  | [], [] => by simp [jsonBeqList]
  | x :: xs, y :: ys => by
    simp [jsonBeqList, jsonBeq_iff x y, jsonBeqList_iff xs ys]
  | [], _ :: _ => by simp [jsonBeqList]
  | _ :: _, [] => by simp [jsonBeqList]

theorem jsonBeqFields_iff : ∀ a b : List (Str × Json), jsonBeqFields a b = true ↔ a = b
  | [], [] => by simp [jsonBeqFields]
  | (k, v) :: xs, (l, w) :: ys => by
    simp [jsonBeqFields, jsonBeq_iff v w, jsonBeqFields_iff xs ys, and_assoc]
  | [], _ :: _ => by simp [jsonBeqFields]
  | _ :: _, [] => by simp [jsonBeqFields]

end

instance : DecidableEq Json := fun a b =>
  decidable_of_iff (jsonBeq a b = true) (jsonBeq_iff a b)

/-- Digits of a number literal to a natural number. -/
def digitsToNat (ds : Str) : Nat :=
  ds.foldl (fun a c => a * 10 + (c.toNat - 48)) 0

/-- Parse a leading run of decimal digits. -/
def parseNum (s : Str) : Option (Nat × Str) :=
  let ds := List.takeWhile Char.isDigit s
  if ds.isEmpty then none else some (digitsToNat ds, List.dropWhile Char.isDigit s)

/-- Map a character after a backslash in a JSON string literal. -/
def escapeChar (c : Char) : Char :=
  if c == 'n' then '\n'
  else if c == 't' then '\t'
  else if c == 'r' then '\r'
  else if c == 'b' then '\x08'
  else if c == 'f' then '\x0c'
  else c

/-- Parse the body of a JSON string literal after the opening quote. -/
def parseStringLit : Str → Option (Str × Str)
  | [] => none
  | c :: rest =>
    if c == '"' then some ([], rest)
    else if c == '\\' then
      match rest with
      | [] => none
      | e :: rest2 =>
        match parseStringLit rest2 with
        | some (s, r) => some (escapeChar e :: s, r)
        | none => none
    else
      match parseStringLit rest with
      | some (s, r) => some (c :: s, r)
      | none => none

/-- Mode of the JSON parser: a value, array items, or object members. -/
inductive PMode where
  | val
  | items
  | members

/-- Result of one parser call, matching the mode it was called in. -/
inductive PRes where
  | v (j : Json)
  | items (xs : List Json)
  | members (kvs : List (Str × Json))

/--
Fuelled recursive-descent JSON parser modelling the grammar `json.loads`
accepts.  Numbers are modelled as optionally signed runs of digits
(no floats or exponents) and `\uXXXX` escapes are not interpreted; the
program only ever meets integers and plain strings.
-/
def parseP : Nat → PMode → Str → Option (PRes × Str)
  | 0, _, _ => none
  | f + 1, .val, s =>
    match skipWS s with
    | [] => none
    | c :: rest =>
      if c == '[' then
        match skipWS rest with
        | ']' :: r2 => some (.v (.arr []), r2)
        | r2 =>
          match parseP f .items r2 with
          | some (.items xs, r) => some (.v (.arr xs), r)
          | _ => none
      else if c == '\x7b' then
        match skipWS rest with
        | '\x7d' :: r2 => some (.v (.obj []), r2)
        | r2 =>
          match parseP f .members r2 with
          | some (.members kvs, r) => some (.v (.obj kvs), r)
          | _ => none
      else if c == '"' then
        match parseStringLit rest with
        | some (t, r) => some (.v (.str t), r)
        | none => none
      else if c == 'n' then
        if startsWith ['u', 'l', 'l'] rest then some (.v .null, List.drop 3 rest)
        else none
      else if c == 't' then
        if startsWith ['r', 'u', 'e'] rest then some (.v (.bool true), List.drop 3 rest)
        else none
      else if c == 'f' then
        if startsWith ['a', 'l', 's', 'e'] rest then some (.v (.bool false), List.drop 4 rest)
        else none
      else if c == '-' then
        match parseNum rest with
        | some (n, r) => some (.v (.num (-(n : Int))), r)
        | none => none
      else
        match parseNum (c :: rest) with
        | some (n, r) => some (.v (.num (n : Int)), r)
        | none => none
  | f + 1, .items, s =>
    match parseP f .val s with
    | some (.v j, r) =>
      (match skipWS r with
       | ',' :: r2 =>
         (match parseP f .items r2 with
          | some (.items xs, r3) => some (.items (j :: xs), r3)
          | _ => none)
       | ']' :: r2 => some (.items [j], r2)
       | _ => none)
    | _ => none
  | f + 1, .members, s =>
    match skipWS s with
    | '"' :: r =>
      (match parseStringLit r with
       | some (k, r1) =>
         (match skipWS r1 with
          | ':' :: r2 =>
            (match parseP f .val r2 with
             | some (.v j, r3) =>
               (match skipWS r3 with
                | ',' :: r4 =>
                  (match parseP f .members r4 with
                   | some (.members kvs, r5) => some (.members ((k, j) :: kvs), r5)
                   | _ => none)
                | '\x7d' :: r4 => some (.members [(k, j)], r4)
                | _ => none)
             | _ => none)
          | _ => none)
       | none => none)
    | _ => none

/--
Model of `json.loads`: parse one JSON value, allowing surrounding
whitespace, and fail (`none`, modelling a raised `JSONDecodeError`) on
anything else, including trailing garbage.  The input is stripped first so
the fuel depends only on the stripped text.
-/
def loads (s : Str) : Option Json :=
  let t := pyStrip s
  match parseP (2 * t.length + 2) .val t with
  | some (.v j, r) => if (skipWS r).isEmpty then some j else none
  | _ => none

/-!
## The program state and its operations (src/main.py)
-/

/--
Contents of the backing record `seen_houses.json`.  `none` models a file
that is missing or unreadable, the two cases `get_seen` collapses to an
empty list; `some l` models a file holding the JSON list `l`, the only
shape the program ever writes.
-/
abbrev DB := Option (List Json)

/-- `get_seen` (main.py lines 24-28): the stored list, or `[]` when the
file is missing or does not parse. -/
def get_seen (fs : DB) : List Json := fs.getD []

/-- `save_seen` (main.py lines 30-31): overwrite the backing record. -/
def save_seen (l : List Json) : DB := some l

/-- Dynamic errors raised by the Python interpreter in `send_alert`. -/
inductive PyErr where
  | keyError (k : Str)
  | typeError
deriving DecidableEq

/-- Outcome of the browser crawl inside the `try` of `crawl_listings`:
an exception, or a result whose `markdown` field is `None` or a string. -/
inductive CrawlErr where
  | exn
deriving DecidableEq

/--
`crawl_listings` (main.py lines 34-75).  Any exception inside the `try`
is caught and converted to the empty string; a result whose markdown is
`None` or empty also yields the empty string.
-/
def crawl_listings (r : Except CrawlErr (Option Str)) : Str :=
  match r with
  | .error _ => []
  | .ok none => []
  | .ok (some md) => if md.isEmpty then [] else md

/-- Outcome of the single chat-completion call in `analyze_data`:
the call raises, or returns a response text. -/
inductive LlmOutcome where
  | exn
  | ok (content : Str)

/-- The code-fence markers stripped from the model response. -/
def fenceJson : Str := "```json".toList

/-- The bare triple-backtick fence. -/
def fence : Str := "```".toList

/-- The sanitizer applied to the raw LLM response (main.py line 118):
`content.replace("```json", "").replace("```", "").strip()`. -/
def sanitizeResp (content : Str) : Str :=
  pyStrip (pyReplace (pyReplace content fenceJson []) fence [])

/--
`analyze_data` (main.py lines 78-122).  Returns the value the Python
function returns together with a flag recording whether the LLM call was
made.  `if not markdown_text or len(markdown_text) < 500` is equivalent to
the length test alone, since an empty text has length `0 < 500`.  A raised
API error or a `json.loads` failure is caught by the `except` and turned
into `[]`; a successful parse is returned unchecked, whatever its shape.
-/
def analyze_data (llm : LlmOutcome) (markdown_text : Str) (fs : DB) : Json × Bool :=
  if markdown_text.length < 500 then (Json.arr [], false)
  else
    let _seen_for_prompt := get_seen fs
    match llm with
    | .exn => (Json.arr [], true)
    | .ok content =>
      match loads (sanitizeResp content) with
      | some v => (v, true)
      | none => (Json.arr [], true)

/-- Outcome of one `requests.post` call to the Telegram endpoint: the call
raises a connection error, or returns a response with some status code.
The code never inspects the status. -/
inductive CallOutcome where
  | exn
  | ok (status : Nat)

/-- The scheme marker tested by `"http" not in house['url']`. -/
def httpStr : Str := "http".toList

/-- Keys of a candidate record. -/
def urlKey : Str := "url".toList

/-- Candidate title key. -/
def titleKey : Str := "title".toList

/-- Candidate price key. -/
def priceKey : Str := "price".toList

/-- Candidate reason key. -/
def reasonKey : Str := "reason".toList

/-- First binding of a key in an association list. -/
def lookupA : List (Str × Json) → Str → Option Json
  | [], _ => none
  | (k, v) :: kvs, key => if k = key then some v else lookupA kvs key

/-- Key lookup on a `Json` value, `none` when absent or not an object. -/
def jsonLookup : Json → Str → Option Json
  | .obj kvs, k => lookupA kvs k
  | _, _ => none

/-- Python subscripting `h[k]` for a string key: `KeyError` on a missing
key, `TypeError` when `h` is not a dict. -/
def pySubscript (h : Json) (k : Str) : Except PyErr Json :=
  match h with
  | .obj kvs =>
    match lookupA kvs k with
    | some v => .ok v
    | none => .error (.keyError k)
  | _ => .error .typeError

/-- Python `"http" in v`: substring test on a string, membership on a
list, key test on a dict, `TypeError` otherwise. -/
def pyContainsHttp (v : Json) : Except PyErr Bool :=
  match v with
  | .str s => .ok (containsSub httpStr s)
  | .arr xs => .ok (xs.contains (Json.str httpStr))
  | .obj kvs => .ok ((kvs.map Prod.fst).contains httpStr)
  | _ => .error .typeError

/-- Python iteration `for house in matches`: the elements of a list, the
characters of a string, the keys of a dict; `TypeError` otherwise. -/
def pyIter : Json → Except PyErr (List Json)
  | .arr xs => .ok xs
  | .str s => .ok (s.map (fun c => Json.str [c]))
  | .obj kvs => .ok (kvs.map (fun kv => Json.str kv.1))
  | _ => .error .typeError

/-- Python truthiness, for `if matches:`. -/
def pyTruthy : Json → Bool
  | .null => false
  | .bool b => b
  | .num n => n != 0
  | .str s => !s.isEmpty
  | .arr xs => !xs.isEmpty
  | .obj kvs => !kvs.isEmpty

/--
Lines 130-132 of `send_alert` for one candidate: evaluate
`"http" not in house['url']` and, unless skipping, the four subscripts of
the message f-string in source order (`title`, `price`, `url`, `reason`).
Returns `none` to model `continue`, `some u` with the url value when the
message was built and the post will be attempted, and an error when a
lookup raises outside any `try`.
-/
def houseGate (house : Json) : Except PyErr (Option Json) :=
  match pySubscript house urlKey with
  | .error e => .error e
  | .ok u =>
    match pyContainsHttp u with
    | .error e => .error e
    | .ok false => .ok none
    | .ok true =>
      match pySubscript house titleKey with
      | .error e => .error e
      | .ok _ =>
        match pySubscript house priceKey with
        | .error e => .error e
        | .ok _ =>
          match pySubscript house urlKey with
          | .error e => .error e
          | .ok _ =>
            match pySubscript house reasonKey with
            | .error e => .error e
            | .ok _ => .ok (some u)

/--
The `for house in matches` loop of `send_alert` (main.py lines 129-139).
Arguments: the delivery oracle indexed by the number of posts already
made, the remaining candidates, the call counter, the accumulated
in-memory seen list, and the log of url values posted so far.  The `try`
around `requests.post` catches a raised call and skips the append; a call
that returns is followed by the append whatever its status.  An error
escaping `houseGate` aborts the whole loop.
-/
def sendLoopAux (d : Nat → CallOutcome) :
    List Json → Nat → List Json → List Json → Except PyErr (List Json) × List Json
  | [], _, seen, posts => (.ok seen, posts)
  | house :: rest, k, seen, posts =>
    match houseGate house with
    | .error e => (.error e, posts)
    | .ok none => sendLoopAux d rest k seen posts
    | .ok (some u) =>
      match d k with
      | .exn => sendLoopAux d rest (k + 1) seen (posts ++ [u])
      | .ok _ => sendLoopAux d rest (k + 1) (seen ++ [u]) (posts ++ [u])

/-- Observable outcome of one `send_alert` call. -/
structure SendEff where
  /-- The backing record after the call. -/
  file : DB
  /-- Whether `save_seen` ran. -/
  wrote : Bool
  /-- The url values of the posts attempted, in order. -/
  posts : List Json
  /-- An exception escaping the call, if any. -/
  err : Option PyErr
deriving DecidableEq

/--
`send_alert` (main.py lines 125-141): reload the seen list, loop over the
candidates, and persist the updated list once at the end.  An uncaught
exception aborts the function before `save_seen`, leaving the file with
its previous contents.
-/
def send_alert (d : Nat → CallOutcome) (ms : Json) (fs : DB) : SendEff :=
  let seen := get_seen fs
  match pyIter ms with
  | .error e => { file := fs, wrote := false, posts := [], err := some e }
  | .ok houses =>
    match sendLoopAux d houses 0 seen [] with
    | (.ok seen2, posts) => { file := save_seen seen2, wrote := true, posts := posts, err := none }
    | (.error e, posts) => { file := fs, wrote := false, posts := posts, err := some e }

/-- The external outcomes one cycle can meet. -/
structure CycleOracles where
  /-- Outcome of the browser crawl. -/
  crawl : Except CrawlErr (Option Str)
  /-- Outcome of the LLM call. -/
  llm : LlmOutcome
  /-- Outcomes of the Telegram posts, by call number. -/
  deliver : Nat → CallOutcome

/-- Observable outcome of one `job` cycle. -/
structure Effects where
  /-- The backing record after the cycle. -/
  file : DB
  /-- Whether the record was written during the cycle. -/
  wrote : Bool
  /-- The url values of the posts attempted. -/
  posts : List Json
  /-- Whether the LLM was called. -/
  llmCalled : Bool
  /-- Whether `send_alert` was invoked. -/
  notifierCalled : Bool
  /-- An exception escaping the cycle, if any. -/
  err : Option PyErr
deriving DecidableEq

/--
`job` (main.py lines 144-162): run the crawler, and when it returned text,
analyze it; when the analysis is truthy, send alerts.  `job` itself has no
`try`: an exception escaping `send_alert` escapes `job`.
-/
def job (os : CycleOracles) (fs : DB) : Effects :=
  let raw := crawl_listings os.crawl
  if 0 < raw.length then
    let a := analyze_data os.llm raw fs
    if pyTruthy a.1 then
      let s := send_alert os.deliver a.1 fs
      { file := s.file, wrote := s.wrote, posts := s.posts,
        llmCalled := a.2, notifierCalled := true, err := s.err }
    else
      { file := fs, wrote := false, posts := [],
        llmCalled := a.2, notifierCalled := false, err := none }
  else
    { file := fs, wrote := false, posts := [],
      llmCalled := false, notifierCalled := false, err := none }

/--
The scheduling loop (main.py lines 164-171): `job()` once, then
`schedule.run_pending()` in a bare `while True`.  Neither the `schedule`
library nor the loop body catches exceptions, so an exception escaping
`job` ends the process; `runCycles n` runs up to `n` cycles, each seeing
the file state the previous one left, and stops at the first uncaught
exception.
-/
def runCycles : Nat → (Nat → CycleOracles) → DB → Except PyErr DB
  | 0, _, fs => .ok fs
  | n + 1, os, fs =>
    let e := job (os 0) fs
    match e.err with
    | some err => .error err
    | none => runCycles n (fun i => os (i + 1)) e.file

/-!
## Specification-side descriptions compared against the code
-/

/-- A candidate shaped as the spec data model says: a record with the four
keys, the url bound to a string. -/
def wfHouse (h : Json) : Bool :=
  match h with
  | .obj kvs =>
    (match lookupA kvs urlKey with
     | some (.str _) => true
     | _ => false)
    && (lookupA kvs titleKey).isSome
    && (lookupA kvs priceKey).isSome
    && (lookupA kvs reasonKey).isSome
  | _ => false

/--
The url values `send_alert` appends to the in-memory seen copy on a pass
over well-formed candidates: those with a scheme marker whose delivery
call returned (with any status); a raised call contributes nothing but
still consumes a call number.
-/
def delivered (d : Nat → CallOutcome) : List Json → Nat → List Json
  | [], _ => []
  | h :: hs, k =>
    match jsonLookup h urlKey with
    | some (.str u) =>
      if containsSub httpStr u then
        match d k with
        | .ok _ => Json.str u :: delivered d hs (k + 1)
        | .exn => delivered d hs (k + 1)
      else delivered d hs k
    | _ => []

/-- The claimed wrapping of a model response in a tagged code fence. -/
def wrapFence (a : Str) : Str := "```json\n".toList ++ a ++ "\n```".toList

/-!
## Concrete fixtures used by witnesses and counterexamples
-/

/-- A rendered page long enough to pass the 500-character gate. -/
def text500 : Str := List.replicate 500 'a'

/-- A fully shaped candidate with a valid url. -/
def houseA : Json := Json.obj [(titleKey, Json.str "tA".toList),
  (priceKey, Json.str "30,000".toList), (urlKey, Json.str "http://a".toList),
  (reasonKey, Json.str "rA".toList)]

/-- A second fully shaped candidate with a valid url. -/
def houseB : Json := Json.obj [(titleKey, Json.str "tB".toList),
  (priceKey, Json.str "31,000".toList), (urlKey, Json.str "http://b".toList),
  (reasonKey, Json.str "rB".toList)]

/-- A candidate record missing the `url` key. -/
def houseBad : Json := Json.obj [(titleKey, Json.str "tB".toList)]

/-- A fully shaped candidate whose url has no scheme marker. -/
def houseNoLink : Json := Json.obj [(titleKey, Json.str "t".toList),
  (priceKey, Json.str "3".toList), (urlKey, Json.str "not-a-link".toList),
  (reasonKey, Json.str "r".toList)]

/-- Cycle oracles in which the LLM answers with an array holding one empty
object, a response shape the pipeline does not survive. -/
def osArrObj : CycleOracles :=
  { crawl := .ok (some text500), llm := .ok "[\x7b\x7d]".toList, deliver := fun _ => .ok 200 }

/-- Cycle oracles in which the LLM answers with a non-array JSON object. -/
def osObjResp : CycleOracles :=
  { crawl := .ok (some text500), llm := .ok "\x7b\"a\": 1\x7d".toList,
    deliver := fun _ => .ok 200 }

/-!
## Lemmas about the string models
-/

theorem sw_self_append : ∀ xs ys : Str, startsWith xs (xs ++ ys) = true := by
  intro xs ys
  induction xs with
  | nil => rfl
  | cons x xs ih => simp [startsWith, ih]

theorem sw_of_append_le : ∀ (pat xs ys : Str), pat.length ≤ xs.length →
    startsWith pat (xs ++ ys) = true → startsWith pat xs = true := by
  intro pat
  induction pat with
  | nil => intro xs ys _ _; rfl
  | cons p ps ih =>
    intro xs ys hle hsw
    cases xs with
    | nil => simp at hle
    | cons x xs2 =>
      simp only [List.cons_append, startsWith, Bool.and_eq_true] at hsw ⊢
      exact ⟨hsw.1, ih xs2 ys (by simpa using hle) hsw.2⟩

theorem sw_of_append_gt : ∀ (xs pat ys : Str), xs.length < pat.length →
    startsWith pat (xs ++ ys) = true → startsWith (List.drop xs.length pat) ys = true := by
  intro xs
  induction xs with
  | nil => intro pat ys _ h; simpa using h
  | cons x xs2 ih =>
    intro pat ys hlt hsw
    cases pat with
    | nil => simp at hlt
    | cons p ps =>
      simp only [List.cons_append, startsWith, Bool.and_eq_true] at hsw
      simpa using ih ps ys (by simpa using hlt) hsw.2

theorem containsSub_of_sw : ∀ (pat xs : Str), startsWith pat xs = true →
    containsSub pat xs = true := by
  intro pat xs h
  cases xs with
  | nil => simpa [containsSub] using h
  | cons c cs => simp [containsSub, h]

theorem containsSub_cons_false : ∀ (pat : Str) (c : Char) (cs : Str),
    containsSub pat (c :: cs) = false →
    startsWith pat (c :: cs) = false ∧ containsSub pat cs = false := by
  intro pat c cs h
  simpa [containsSub] using h

theorem sw_trans : ∀ (p q xs : Str), startsWith p q = true → startsWith q xs = true →
    startsWith p xs = true := by
  intro p
  induction p with
  | nil => intro q xs _ _; rfl
  | cons a ps ih =>
    intro q xs hpq hqx
    cases q with
    | nil => simp [startsWith] at hpq
    | cons b qs =>
      cases xs with
      | nil => simp [startsWith] at hqx
      | cons c cs =>
        simp only [startsWith, Bool.and_eq_true, beq_iff_eq] at hpq hqx ⊢
        exact ⟨hpq.1.trans hqx.1, ih qs cs hpq.2 hqx.2⟩

theorem csub_mono : ∀ (p q xs : Str), startsWith p q = true →
    containsSub q xs = true → containsSub p xs = true := by
  intro p q xs hpq
  induction xs with
  | nil =>
    intro h
    simp only [containsSub] at h ⊢
    cases q with
    | nil =>
      cases p with
      | nil => rfl
      | cons a ps => simp [startsWith] at hpq
    | cons b qs => simp [startsWith] at h
  | cons c cs ih =>
    intro h
    simp only [containsSub, Bool.or_eq_true] at h ⊢
    cases h with
    | inl h => exact Or.inl (sw_trans p q (c :: cs) hpq h)
    | inr h => exact Or.inr (ih h)

theorem csub_mono_false (p q : Str) (xs : Str) (hpq : startsWith p q = true)
    (h : containsSub p xs = false) : containsSub q xs = false := by
  cases hq : containsSub q xs with
  | false => rfl
  | true => rw [csub_mono p q xs hpq hq] at h; cases h

theorem sw_false_head : ∀ (pat : Str) (c : Char) (cs : Str),
    (pat.headD c == c) = false → startsWith pat (c :: cs) = false := by
  intro pat c cs h
  cases pat with
  | nil => simp at h
  | cons p ps => simpa [startsWith, Bool.and_eq_true] using fun hpc => absurd hpc (by simpa using h)

theorem rf_no_occ (pat rep : Str) : ∀ (f : Nat) (xs : Str),
    containsSub pat xs = false → replaceFuel pat rep f xs = xs := by
  intro f
  induction f with
  | zero => intro xs _; rfl
  | succ f ih =>
    intro xs h
    cases xs with
    | nil => rfl
    | cons c cs =>
      obtain ⟨h1, h2⟩ := containsSub_cons_false pat c cs h
      simp [replaceFuel, h1, ih cs h2]

theorem rf_head (p : Char) (ps rep ys : Str) (f : Nat) :
    replaceFuel (p :: ps) rep (f + 1) ((p :: ps) ++ ys) = rep ++ replaceFuel (p :: ps) rep f ys := by
  have hsw : startsWith (p :: ps) (p :: (ps ++ ys)) = true := sw_self_append (p :: ps) ys
  have hdrop : List.drop ((p :: ps).length - 1) (ps ++ ys) = ys := by
    simp [List.drop_left]
  simp [replaceFuel, hsw, hdrop]

theorem rf_append_clean (pat rep ys : Str)
    (hspan : ∀ k, k < pat.length → 0 < k → startsWith (List.drop k pat) ys = false) :
    ∀ (xs : Str) (f : Nat), containsSub pat xs = false → xs.length ≤ f →
    replaceFuel pat rep f (xs ++ ys) = xs ++ replaceFuel pat rep (f - xs.length) ys := by
  intro xs
  induction xs with
  | nil => intro f _ _; simp
  | cons c cs ih =>
    intro f hocc hlen
    cases f with
    | zero => simp at hlen
    | succ f =>
      obtain ⟨h1, h2⟩ := containsSub_cons_false pat c cs hocc
      have hsw : startsWith pat (c :: (cs ++ ys)) = false := by
        cases hsw : startsWith pat (c :: (cs ++ ys)) with
        | false => rfl
        | true =>
          rcases Nat.lt_or_ge (c :: cs).length pat.length with hlt | hge
          · have := sw_of_append_gt (c :: cs) pat ys hlt (by simpa using hsw)
            rw [hspan (c :: cs).length hlt (by simp)] at this
            cases this
          · have := sw_of_append_le pat (c :: cs) ys hge (by simpa using hsw)
            simp [this] at h1
      have hsub : (f + 1) - (c :: cs).length = f - cs.length := by
        simp [Nat.succ_sub_succ]
      have hstep : replaceFuel pat rep (f + 1) ((c :: cs) ++ ys)
          = c :: replaceFuel pat rep f (cs ++ ys) := by
        simp [replaceFuel, hsw]
      rw [hstep, ih f h2 (by simpa using hlen), hsub]
      simp

theorem dw_head_false (p : Char → Bool) : ∀ (xs : Str) (y : Char) (ys : Str),
    List.dropWhile p xs = y :: ys → p y = false := by
  intro xs
  induction xs with
  | nil => intro y ys h; cases h
  | cons c cs ih =>
    intro y ys h
    rw [List.dropWhile_cons] at h
    by_cases hc : p c = true
    · exact ih y ys (by simpa [hc] using h)
    · simp only [hc, if_neg] at h
      cases h
      simpa using hc

theorem dw_idem (p : Char → Bool) (xs : Str) :
    List.dropWhile p (List.dropWhile p xs) = List.dropWhile p xs := by
  cases h : List.dropWhile p xs with
  | nil => rfl
  | cons y ys =>
    have := dw_head_false p xs y ys h
    simp [List.dropWhile_cons, this]

theorem stripR_append_space (c : Char) (hc : isPySpace c = true) (xs : Str) :
    stripR (xs ++ [c]) = stripR xs := by
  simp [stripR, List.reverse_append, List.dropWhile_cons, hc]

theorem pyStrip_cons_space (c : Char) (hc : isPySpace c = true) (xs : Str) :
    pyStrip (c :: xs) = pyStrip xs := by
  simp [pyStrip, stripL, List.dropWhile_cons, hc]

theorem stripL_append_cases (c : Char) (hc : isPySpace c = true) (xs : Str) :
    stripL (xs ++ [c]) = stripL xs ++ [c] ∨ (stripL xs = [] ∧ stripL (xs ++ [c]) = []) := by
  induction xs with
  | nil => right; exact ⟨rfl, by simp [stripL, List.dropWhile_cons, hc]⟩
  | cons x xs2 ih =>
    by_cases hx : isPySpace x = true
    · simpa [stripL, List.dropWhile_cons, hx] using ih
    · left
      simp [stripL, List.dropWhile_cons, hx]

theorem pyStrip_append_space (c : Char) (hc : isPySpace c = true) (xs : Str) :
    pyStrip (xs ++ [c]) = pyStrip xs := by
  rcases stripL_append_cases c hc xs with h | ⟨h1, h2⟩
  · simp only [pyStrip, h]
    exact stripR_append_space c hc (stripL xs)
  · simp [pyStrip, h1, h2, stripR]

theorem stripR_self_append (xs : Str) : ∃ t, xs = stripR xs ++ t := by
  refine ⟨(List.takeWhile isPySpace xs.reverse).reverse, ?_⟩
  have h := List.takeWhile_append_dropWhile (p := isPySpace) (l := xs.reverse)
  have h2 : xs.reverse.reverse
      = (List.takeWhile isPySpace xs.reverse ++ List.dropWhile isPySpace xs.reverse).reverse := by
    rw [h]
  rw [List.reverse_append] at h2
  simpa [stripR] using h2

theorem stripR_idem (xs : Str) : stripR (stripR xs) = stripR xs := by
  simp [stripR, List.reverse_reverse, dw_idem]

theorem stripL_of_head_not (xs : Str)
    (h : ∀ y ys, xs = y :: ys → isPySpace y = false) : stripL xs = xs := by
  cases xs with
  | nil => rfl
  | cons y ys => simp [stripL, List.dropWhile_cons, h y ys rfl]

theorem pyStrip_idem (xs : Str) : pyStrip (pyStrip xs) = pyStrip xs := by
  have hL : stripL (stripR (stripL xs)) = stripR (stripL xs) := by
    apply stripL_of_head_not
    intro y ys hy
    obtain ⟨t, ht⟩ := stripR_self_append (stripL xs)
    rw [hy] at ht
    exact dw_head_false isPySpace xs y (ys ++ t) (by simpa using ht)
  simp only [pyStrip, hL, stripR_idem]

theorem rf_head_ne (pat rep ys : Str) (f : Nat) (hne : pat ≠ []) :
    replaceFuel pat rep (f + 1) (pat ++ ys) = rep ++ replaceFuel pat rep f ys := by
  cases pat with
  | nil => cases hne rfl
  | cons p ps => exact rf_head p ps rep ys f

theorem rf_cons_nomatch (pat rep : Str) (c : Char) (cs : Str) (f : Nat)
    (h : startsWith pat (c :: cs) = false) :
    replaceFuel pat rep (f + 1) (c :: cs) = c :: replaceFuel pat rep f cs := by
  simp [replaceFuel, h]

/--
Effect of the code-fence sanitizer on a fenced payload: when the payload
contains no triple backtick, stripping the two fence markers and the
surrounding whitespace recovers exactly the stripped payload.
-/
theorem sanitize_wrap (A : Str) (hA : containsSub fence A = false) :
    sanitizeResp (wrapFence A) = pyStrip A := by
  have hAj : containsSub fenceJson A = false :=
    csub_mono_false fence fenceJson A (by decide) hA
  have h1 : "```json\n".toList = fenceJson ++ ['\n'] := by decide
  have h2 : "\n```".toList = '\n' :: fence := by decide
  have hw : wrapFence A = fenceJson ++ ('\n' :: (A ++ ('\n' :: fence))) := by
    rw [wrapFence, h1, h2]
    simp
  have hlw : (wrapFence A).length = A.length + 11 + 1 := by
    rw [hw]
    have hf7 : fenceJson.length = 7 := by decide
    have hf3 : fence.length = 3 := by decide
    simp [hf7, hf3]
    omega
  have hspan1 : ∀ k, k < fenceJson.length → 0 < k →
      startsWith (List.drop k fenceJson) ('\n' :: fence) = false := by decide
  have hstep1 : pyReplace (wrapFence A) fenceJson [] = '\n' :: (A ++ ('\n' :: fence)) := by
    simp only [pyReplace, hlw]
    rw [hw, rf_head_ne fenceJson [] ('\n' :: (A ++ ('\n' :: fence))) (A.length + 11) (by decide)]
    rw [show A.length + 11 = A.length + 10 + 1 from rfl]
    rw [rf_cons_nomatch fenceJson [] '\n' (A ++ ('\n' :: fence)) (A.length + 10)
      (sw_false_head fenceJson '\n' (A ++ ('\n' :: fence)) (by decide))]
    rw [rf_append_clean fenceJson [] ('\n' :: fence) hspan1 A (A.length + 10) hAj (by omega)]
    have h10 : A.length + 10 - A.length = 10 := by omega
    rw [h10]
    rw [show replaceFuel fenceJson [] 10 ('\n' :: fence) = '\n' :: fence from by decide]
    simp
  have hspan2 : ∀ k, k < fence.length → 0 < k →
      startsWith (List.drop k fence) ('\n' :: fence) = false := by decide
  have hstep2 : pyReplace ('\n' :: (A ++ ('\n' :: fence))) fence [] = '\n' :: (A ++ ['\n']) := by
    simp only [pyReplace, List.length_cons]
    rw [rf_cons_nomatch fence [] '\n' (A ++ ('\n' :: fence)) (A ++ ('\n' :: fence)).length
      (sw_false_head fence '\n' (A ++ ('\n' :: fence)) (by decide))]
    rw [rf_append_clean fence [] ('\n' :: fence) hspan2 A (A ++ ('\n' :: fence)).length hA
      (by simp)]
    have h4 : (A ++ ('\n' :: fence)).length - A.length = 4 := by
      have hf3 : fence.length = 3 := by decide
      simp [hf3]
    rw [h4]
    rw [show replaceFuel fence [] 4 ('\n' :: fence) = ['\n'] from by decide]
  rw [sanitizeResp, hstep1, hstep2]
  rw [pyStrip_cons_space '\n' (by decide) (A ++ ['\n'])]
  exact pyStrip_append_space '\n' (by decide) A

theorem loads_pyStrip (s : Str) : loads (pyStrip s) = loads s := by
  simp only [loads, pyStrip_idem]

/-!
## Lemmas about the notifier loop
-/

theorem pySubscript_of_lookup (h : Json) (k : Str) (v : Json)
    (hl : jsonLookup h k = some v) : pySubscript h k = .ok v := by
  cases h with
  | obj kvs => simp only [jsonLookup] at hl; simp [pySubscript, hl]
  | null => cases hl
  | bool b => cases hl
  | num n => cases hl
  | str s => cases hl
  | arr xs => cases hl

theorem wfHouse_elim (h : Json) (hw : wfHouse h = true) :
    ∃ kvs u, h = Json.obj kvs ∧ lookupA kvs urlKey = some (Json.str u)
      ∧ (lookupA kvs titleKey).isSome ∧ (lookupA kvs priceKey).isSome
      ∧ (lookupA kvs reasonKey).isSome := by
  cases h with
  | obj kvs =>
    simp only [wfHouse, Bool.and_eq_true] at hw
    obtain ⟨⟨⟨hu, ht⟩, hp⟩, hr⟩ := hw
    cases hul : lookupA kvs urlKey with
    | none => rw [hul] at hu; cases hu
    | some v =>
      cases v with
      | str u => exact ⟨kvs, u, rfl, hul, by simpa using ht, by simpa using hp, by simpa using hr⟩
      | null => rw [hul] at hu; cases hu
      | bool b => rw [hul] at hu; cases hu
      | num n => rw [hul] at hu; cases hu
      | arr xs => rw [hul] at hu; cases hu
      | obj o => rw [hul] at hu; cases hu
  | null => cases hw
  | bool b => cases hw
  | num n => cases hw
  | str s => cases hw
  | arr xs => cases hw

theorem houseGate_wf (h : Json) (hw : wfHouse h = true) :
    ∃ u, jsonLookup h urlKey = some (Json.str u)
      ∧ ((containsSub httpStr u = true ∧ houseGate h = .ok (some (Json.str u)))
        ∨ (containsSub httpStr u = false ∧ houseGate h = .ok none)) := by
  obtain ⟨kvs, u, rfl, hul, ht, hp, hr⟩ := wfHouse_elim h hw
  obtain ⟨tv, htv⟩ := Option.isSome_iff_exists.mp ht
  obtain ⟨pv, hpv⟩ := Option.isSome_iff_exists.mp hp
  obtain ⟨rv, hrv⟩ := Option.isSome_iff_exists.mp hr
  refine ⟨u, by simpa [jsonLookup] using hul, ?_⟩
  cases hc : containsSub httpStr u with
  | false =>
    right
    exact ⟨rfl, by simp [houseGate, pySubscript, hul, pyContainsHttp, hc]⟩
  | true =>
    left
    exact ⟨rfl, by simp [houseGate, pySubscript, hul, pyContainsHttp, hc, htv, hpv, hrv]⟩

theorem sendLoop_wf (d : Nat → CallOutcome) : ∀ (hs : List Json) (k : Nat)
    (seen posts : List Json), (∀ h ∈ hs, wfHouse h = true) →
    (sendLoopAux d hs k seen posts).1 = Except.ok (seen ++ delivered d hs k) := by
  intro hs
  induction hs with
  | nil => intro k seen posts _; simp [sendLoopAux, delivered]
  | cons h hs ih =>
    intro k seen posts hw
    have hwh : wfHouse h = true := hw h (List.mem_cons_self h hs)
    have hwt : ∀ x ∈ hs, wfHouse x = true := fun x hx => hw x (List.mem_cons_of_mem h hx)
    obtain ⟨u, hul, hcase⟩ := houseGate_wf h hwh
    rcases hcase with ⟨hc, hgate⟩ | ⟨hc, hgate⟩
    · cases hd : d k with
      | exn =>
        simp only [sendLoopAux, hgate, hd, delivered, hul, hc]
        simpa using ih (k + 1) seen (posts ++ [Json.str u]) hwt
      | ok s =>
        simp only [sendLoopAux, hgate, hd, delivered, hul, hc]
        rw [ih (k + 1) (seen ++ [Json.str u]) (posts ++ [Json.str u]) hwt]
        simp
    · simp only [sendLoopAux, hgate, delivered, hul, hc]
      simpa using ih k seen posts hwt

theorem send_alert_wf (d : Nat → CallOutcome) (hs : List Json) (fs : DB)
    (hw : ∀ h ∈ hs, wfHouse h = true) :
    (send_alert d (Json.arr hs) fs).err = none
      ∧ (send_alert d (Json.arr hs) fs).file = some (get_seen fs ++ delivered d hs 0) := by
  have h1 := sendLoop_wf d hs 0 (get_seen fs) [] hw
  simp only [send_alert, pyIter]
  cases h2 : sendLoopAux d hs 0 (get_seen fs) [] with
  | mk res posts =>
    rw [h2] at h1
    simp only at h1
    rw [h1]
    simp [save_seen]

theorem delivered_mem (d : Nat → CallOutcome) : ∀ (hs : List Json) (k : Nat) (x : Json),
    x ∈ delivered d hs k → ∃ h, h ∈ hs ∧ jsonLookup h urlKey = some x := by
  intro hs
  induction hs with
  | nil => intro k x hx; simp [delivered] at hx
  | cons h hs ih =>
    intro k x hx
    cases hul : jsonLookup h urlKey with
    | none => simp only [delivered, hul] at hx; simp at hx
    | some v =>
      cases v with
      | str u =>
        simp only [delivered, hul] at hx
        cases hc : containsSub httpStr u with
        | false =>
          simp [hc] at hx
          obtain ⟨h2, hm, hl⟩ := ih k x hx
          exact ⟨h2, List.mem_cons_of_mem h hm, hl⟩
        | true =>
          simp [hc] at hx
          cases hd : d k with
          | exn =>
            simp only [hd] at hx
            obtain ⟨h2, hm, hl⟩ := ih (k + 1) x hx
            exact ⟨h2, List.mem_cons_of_mem h hm, hl⟩
          | ok s =>
            simp only [hd] at hx
            rcases List.mem_cons.mp hx with hx | hx
            · exact ⟨h, List.mem_cons_self h hs, by rw [hul, hx]⟩
            · obtain ⟨h2, hm, hl⟩ := ih (k + 1) x hx
              exact ⟨h2, List.mem_cons_of_mem h hm, hl⟩
      | null => simp only [delivered, hul] at hx; simp at hx
      | bool b => simp only [delivered, hul] at hx; simp at hx
      | num n => simp only [delivered, hul] at hx; simp at hx
      | arr xs => simp only [delivered, hul] at hx; simp at hx
      | obj o => simp only [delivered, hul] at hx; simp at hx

theorem sendLoop_skip (d : Nat → CallOutcome) (house : Json) (suf : List Json)
    (hg : houseGate house = .ok none) : ∀ (pre : List Json) (k : Nat) (seen posts : List Json),
    sendLoopAux d (pre ++ house :: suf) k seen posts = sendLoopAux d (pre ++ suf) k seen posts := by
  intro pre
  induction pre with
  | nil =>
    intro k seen posts
    simp [sendLoopAux, hg]
  | cons p pre ih =>
    intro k seen posts
    simp only [List.cons_append, sendLoopAux]
    cases houseGate p with
    | error e => rfl
    | ok o =>
      cases o with
      | none => exact ih k seen posts
      | some u =>
        cases d k with
        | exn => exact ih (k + 1) seen (posts ++ [u])
        | ok s => exact ih (k + 1) (seen ++ [u]) (posts ++ [u])

/-!
## Claim theorems
-/

/--
C1, counterexample.  The claim says a url is appended exactly when the
delivery got a success status, and that a candidate that failed delivery
is absent from the persisted set.  Here the first candidate gets status
400 (no exception) and is still appended, and the second candidate raises
yet its url stays in the persisted set because the loaded set already held
it, so both directions of the claim fail on the code.
-/
theorem C1_counterexample :
    send_alert (fun k => if k = 0 then CallOutcome.ok 400 else CallOutcome.exn)
      (Json.arr [houseA, houseB]) (some [Json.str "http://b".toList])
    = { file := some [Json.str "http://b".toList, Json.str "http://a".toList], wrote := true,
        posts := [Json.str "http://a".toList, Json.str "http://b".toList], err := none } := by
  decide

/--
C1, amended.  On a pass over well-formed candidates no exception escapes,
and the persisted seen set is the loaded set extended, in order, by the
url of every candidate with a scheme marker whose delivery call returned
without raising, whatever the response status; a candidate whose call
raised contributes nothing, so its url is absent unless it was already in
the loaded set or another candidate shares it.
-/
theorem C1_marks_on_unraised_delivery (d : Nat → CallOutcome) (hs : List Json) (fs : DB)
    (hw : ∀ h ∈ hs, wfHouse h = true) :
    (send_alert d (Json.arr hs) fs).err = none
      ∧ (send_alert d (Json.arr hs) fs).file = some (get_seen fs ++ delivered d hs 0) :=
  send_alert_wf d hs fs hw

/-- C1, witness for the amended theorem at a concrete input. -/
theorem C1_marks_on_unraised_delivery_witness :
    (∀ h ∈ [houseA], wfHouse h = true)
      ∧ ((send_alert (fun _ => CallOutcome.ok 200) (Json.arr [houseA]) (some [])).err = none
        ∧ (send_alert (fun _ => CallOutcome.ok 200) (Json.arr [houseA]) (some [])).file
          = some (get_seen (some []) ++ delivered (fun _ => CallOutcome.ok 200) [houseA] 0)) :=
  ⟨by decide, C1_marks_on_unraised_delivery (fun _ => CallOutcome.ok 200) [houseA] (some [])
    (by decide)⟩

/--
C2, counterexample.  The claim says any exception escaping a stage is
caught at the cycle boundary and a failed cycle never prevents future
cycles.  With oracles whose LLM answer is the JSON object `(a: 1)`, the
first cycle raises `TypeError` inside `send_alert`, nothing catches it,
and the two-cycle run dies on cycle one.
-/
theorem C2_counterexample :
    runCycles 2 (fun _ => osObjResp) none = .error PyErr.typeError := rfl

/--
C2, amended.  There is no handler at the cycle boundary: whenever an
exception escapes a stage inside `job`, the whole loop stops with that
exception and no later cycle runs.
-/
theorem C2_uncaught_stops_loop (n : Nat) (os : Nat → CycleOracles) (fs : DB) (e : PyErr)
    (h : (job (os 0) fs).err = some e) : runCycles (n + 1) os fs = .error e := by
  simp [runCycles, h]

/-- C2, witness: a malformed candidate kills a three-cycle run. -/
theorem C2_uncaught_stops_loop_witness :
    (job osArrObj none).err = some (PyErr.keyError urlKey)
      ∧ runCycles 3 (fun _ => osArrObj) none = .error (PyErr.keyError urlKey) :=
  ⟨by decide, C2_uncaught_stops_loop 2 (fun _ => osArrObj) none (PyErr.keyError urlKey)
    (by decide)⟩

/--
C3, counterexample.  The claim says a response that parses but is not a
JSON array yields an empty candidate list.  A response consisting of an
empty JSON object parses, is not an array, and is returned as-is.
-/
theorem C3_counterexample :
    analyze_data (.ok "\x7b\x7d".toList) text500 none = (Json.obj [], true)
      ∧ Json.obj [] ≠ Json.arr [] :=
  ⟨by decide, by decide⟩

/--
C3, amended.  When the sanitized response does not parse as JSON the
Extractor logs the failure and returns an empty list without raising; a
response that parses is returned unchanged, whether or not it is an
array.  (The code logs the exception text, not the raw content.)
-/
theorem C3_parse_failure_amended (text c : Str) (fs : DB) (hlen : 500 ≤ text.length) :
    (loads (sanitizeResp c) = none → analyze_data (.ok c) text fs = (Json.arr [], true))
      ∧ (∀ v, loads (sanitizeResp c) = some v → analyze_data (.ok c) text fs = (v, true)) := by
  have hnl : ¬ (text.length < 500) := by omega
  constructor
  · intro h
    simp [analyze_data, hnl, h]
  · intro v h
    simp [analyze_data, hnl, h]

/-- C3, witness: a plain-prose response yields the empty list. -/
theorem C3_parse_failure_amended_witness :
    500 ≤ text500.length ∧ loads (sanitizeResp "this is not json".toList) = none
      ∧ analyze_data (.ok "this is not json".toList) text500 none = (Json.arr [], true) :=
  ⟨by decide, by decide,
    (C3_parse_failure_amended text500 "this is not json".toList none (by decide)).1 (by decide)⟩

/--
C4, counterexample.  The claim says no pipeline operation ever produces a
seen set holding the same url twice.  Delivering a candidate whose url is
already in the loaded set appends it again without a membership check.
-/
theorem C4_counterexample :
    (send_alert (fun _ => CallOutcome.ok 200) (Json.arr [houseA])
        (some [Json.str "http://a".toList])).file
      = some [Json.str "http://a".toList, Json.str "http://a".toList] := by
  decide

/--
C4, amended.  The seen set is append-only: a notifier pass over
well-formed candidates persists the loaded sequence unchanged, extended by
url values drawn from the candidates; distinctness is not enforced, so a
url already present (or shared by two candidates) appears twice.
-/
theorem C4_append_only (d : Nat → CallOutcome) (hs : List Json) (fs : DB)
    (hw : ∀ h ∈ hs, wfHouse h = true) :
    ∃ t, (send_alert d (Json.arr hs) fs).file = some (get_seen fs ++ t)
      ∧ ∀ x ∈ t, ∃ h, h ∈ hs ∧ jsonLookup h urlKey = some x :=
  ⟨delivered d hs 0, (send_alert_wf d hs fs hw).2,
    fun x hx => delivered_mem d hs 0 x hx⟩

/-- C4, witness for the amended theorem at a concrete input. -/
theorem C4_append_only_witness :
    (∀ h ∈ [houseB], wfHouse h = true)
      ∧ ∃ t, (send_alert (fun _ => CallOutcome.exn) (Json.arr [houseB]) none).file
          = some (get_seen none ++ t)
        ∧ ∀ x ∈ t, ∃ h, h ∈ [houseB] ∧ jsonLookup h urlKey = some x :=
  ⟨by decide, C4_append_only (fun _ => CallOutcome.exn) [houseB] none (by decide)⟩

/--
C5 (confirmed): page text shorter than 500 characters, the empty string
included, makes `analyze_data` return an empty list with no LLM call.
-/
theorem C5_short_gate (llm : LlmOutcome) (text : Str) (fs : DB) (h : text.length < 500) :
    analyze_data llm text fs = (Json.arr [], false) := by
  simp [analyze_data, h]

/-- C5, witness at a 400-character page text. -/
theorem C5_short_gate_witness :
    (List.replicate 400 'a').length < 500
      ∧ analyze_data .exn (List.replicate 400 'a') none = (Json.arr [], false) :=
  ⟨by decide, C5_short_gate .exn (List.replicate 400 'a') none (by decide)⟩

/--
C6, counterexample.  The claim quantifies over every JSON array text, but
the sanitizer deletes triple backticks inside the payload as well: for the
array holding the single string of three backticks, sanitizing the fenced
response parses to a different value than the payload itself.
-/
theorem C6_counterexample :
    loads "[\"```\"]".toList = some (Json.arr [Json.str fence])
      ∧ loads (sanitizeResp (wrapFence "[\"```\"]".toList)) ≠ loads "[\"```\"]".toList :=
  ⟨by decide, by decide⟩

/--
C6, amended.  For every JSON array text that does not itself contain a
triple backtick, sanitizing the fenced response and parsing gives exactly
the value of parsing the text directly.
-/
theorem C6_roundtrip_amended (A : Str) (_harr : ∃ xs, loads A = some (Json.arr xs))
    (hA : containsSub fence A = false) :
    loads (sanitizeResp (wrapFence A)) = loads A := by
  rw [sanitize_wrap A hA, loads_pyStrip]

/-- C6, witness on a two-element array. -/
theorem C6_roundtrip_amended_witness :
    (∃ xs, loads "[1, 2]".toList = some (Json.arr xs))
      ∧ containsSub fence "[1, 2]".toList = false
      ∧ loads (sanitizeResp (wrapFence "[1, 2]".toList)) = loads "[1, 2]".toList :=
  ⟨⟨[Json.num 1, Json.num 2], by decide⟩, by decide,
    C6_roundtrip_amended "[1, 2]".toList ⟨[Json.num 1, Json.num 2], by decide⟩ (by decide)⟩

/--
C7 (confirmed): a candidate whose url value lacks the scheme marker is
skipped outright: the notifier behaves exactly as if the candidate were
absent, so no delivery is attempted for it, nothing is appended for it,
and the file, posts and error outcomes are unchanged.
-/
theorem C7_invalid_url_skipped (d : Nat → CallOutcome) (fs : DB) (pre suf : List Json)
    (house : Json) (u : Str) (hu : jsonLookup house urlKey = some (Json.str u))
    (hhttp : containsSub httpStr u = false) :
    send_alert d (Json.arr (pre ++ house :: suf)) fs
      = send_alert d (Json.arr (pre ++ suf)) fs := by
  have hg : houseGate house = .ok none := by
    have hsub := pySubscript_of_lookup house urlKey (Json.str u) hu
    simp [houseGate, hsub, pyContainsHttp, hhttp]
  simp only [send_alert, pyIter]
  rw [sendLoop_skip d house suf hg pre 0 (get_seen fs) []]

/-- C7, witness: the candidate with url `not-a-link` is dropped. -/
theorem C7_invalid_url_skipped_witness :
    jsonLookup houseNoLink urlKey = some (Json.str "not-a-link".toList)
      ∧ containsSub httpStr "not-a-link".toList = false
      ∧ send_alert (fun _ => CallOutcome.ok 200) (Json.arr [houseNoLink]) (some [])
        = send_alert (fun _ => CallOutcome.ok 200) (Json.arr []) (some []) :=
  ⟨by decide, by decide,
    C7_invalid_url_skipped (fun _ => CallOutcome.ok 200) (some []) [] [] houseNoLink
      "not-a-link".toList (by decide) (by decide)⟩

/--
C8 (confirmed): the fetcher is a total function of the crawl outcome — an
exception, a missing markdown and an empty markdown all become the empty
string, and a non-empty markdown is returned as is, so no exception ever
reaches the caller.
-/
theorem C8_fetcher_total :
    (∀ e, crawl_listings (.error e) = [])
      ∧ crawl_listings (.ok none) = []
      ∧ crawl_listings (.ok (some [])) = []
      ∧ ∀ md : Str, md ≠ [] → crawl_listings (.ok (some md)) = md := by
  refine ⟨fun e => rfl, rfl, rfl, fun md h => ?_⟩
  simp [crawl_listings, h]

/-- C8, witness on a one-character page. -/
theorem C8_fetcher_total_witness :
    "x".toList ≠ [] ∧ crawl_listings (.ok (some "x".toList)) = "x".toList :=
  ⟨by decide, C8_fetcher_total.2.2.2 "x".toList (by decide)⟩

/--
C9 (confirmed): in a cycle whose fetch comes back empty or whose analysis
yields an empty candidate list, the notifier is never invoked and the
backing record is not written at all — the file keeps its prior value and
no write happens.
-/
theorem C9_frame (os : CycleOracles) (fs : DB)
    (h : crawl_listings os.crawl = []
      ∨ (analyze_data os.llm (crawl_listings os.crawl) fs).1 = Json.arr []) :
    (job os fs).notifierCalled = false ∧ (job os fs).wrote = false ∧ (job os fs).file = fs := by
  rcases h with h | h
  · simp [job, h]
  · by_cases hr : 0 < (crawl_listings os.crawl).length
    · simp [job, hr, h, pyTruthy]
    · simp [job, hr]

/-- C9, witness: a failed crawl leaves everything untouched. -/
theorem C9_frame_witness :
    crawl_listings (Except.error CrawlErr.exn) = []
      ∧ ((job ⟨Except.error CrawlErr.exn, .exn, fun _ => .exn⟩ none).notifierCalled = false
        ∧ (job ⟨Except.error CrawlErr.exn, .exn, fun _ => .exn⟩ none).wrote = false
        ∧ (job ⟨Except.error CrawlErr.exn, .exn, fun _ => .exn⟩ none).file = none) :=
  ⟨rfl, C9_frame ⟨Except.error CrawlErr.exn, .exn, fun _ => .exn⟩ none (Or.inl rfl)⟩

/--
C10 (confirmed): `send_alert` validates nothing beyond the scheme test —
on a list whose second candidate lacks the `url` key it raises `KeyError`
before the final save, so the url of the first candidate, already
delivered and appended in memory, is not persisted and the file keeps its
pre-call contents.
-/
theorem C10_no_validation :
    send_alert (fun _ => CallOutcome.ok 200) (Json.arr [houseA, houseBad])
        (some [Json.str "old".toList])
      = { file := some [Json.str "old".toList], wrote := false,
          posts := [Json.str "http://a".toList], err := some (PyErr.keyError urlKey) } := by
  decide
